import Mathlib

/-!
Verification of the `copyspan` crate: a half-open interval value type
`Span<T>` over fixed-width integer domains, with containment, emptiness,
overlap, copy-mutators, range conversion, iteration and slice indexing.

The definitions below are a shallow embedding of `src/lib.rs` (and the
standard-library range semantics it delegates to).  `Span` and `Range`
are two-field records `start`/`end`; all methods are pure functions.
Machine integers are modelled by `Int` for the order-theoretic operations
(whose behaviour is uniform across the ten supported integer types) and
by `Fin (2 ^ 8)` where fixed-width overflow of `+` matters (`with_len`).
-/

namespace Copyspan

/-- The native half-open range `start..end` (Rust `core::ops::Range<T>`). -/
structure Range (T : Type) where
  start : T
  «end» : T
deriving DecidableEq

variable {T : Type}

/-- `Range::contains`: half-open membership `start <= x && x < end`. -/
def Range.contains [LinearOrder T] (r : Range T) (x : T) : Bool :=
  decide (r.start ≤ x) && decide (x < r.«end»)

/-- The `Span` record of `src/lib.rs`: two adjacent fields, `start` then
`end`, no invariant relating them. -/
structure Span (T : Type) where
  start : T
  «end» : T
deriving DecidableEq

/-- `Span::range`: the native range `start..end` with the same two fields. -/
def Span.range (s : Span T) : Range T :=
  { start := s.start, «end» := s.«end» }

/-- `impl From<Range<T>> for Span<T>`: copy the two fields across. -/
def Span.fromRange (r : Range T) : Span T :=
  { start := r.start, «end» := r.«end» }

/-- `impl From<Span<T>> for Range<T>`: delegates to `Span::range`. -/
def Range.fromSpan (s : Span T) : Range T :=
  s.range

/-- `Span::span_after`: the zero-width span `[end, end)`. -/
def Span.span_after (s : Span T) : Span T :=
  { start := s.«end», «end» := s.«end» }

/-- `Span::span_at`: the zero-width span `[start, start)`. -/
def Span.span_at (s : Span T) : Span T :=
  { start := s.start, «end» := s.start }

/-- `Span::with_len`: `[start, start + len)`, using the element domain's
own addition. -/
def Span.with_len [Add T] (s : Span T) (len : T) : Span T :=
  { start := s.start, «end» := s.start + len }

/-- `Span::with_start`: `[new_start, end)`. -/
def Span.with_start (s : Span T) (start : T) : Span T :=
  { start := start, «end» := s.«end» }

/-- `Span::with_end`: `[start, new_end)`. -/
def Span.with_end (s : Span T) («end» : T) : Span T :=
  { start := s.start, «end» := «end» }

/-- `Span::at`: the zero-width span `[pos, pos)`. -/
def Span.«at» (pos : T) : Span T :=
  { start := pos, «end» := pos }

/-- `Span::contains`: delegates to `self.range().contains(&elem)`. -/
def Span.contains [LinearOrder T] (s : Span T) (elem : T) : Bool :=
  s.range.contains elem

/-- `Span::is_empty`: the literal field equality `start == end`. -/
def Span.is_empty [DecidableEq T] (s : Span T) : Bool :=
  decide (s.start = s.«end»)

/-- `Span::overlaps_with`: the exact two-clause disjunction
`self.contains(other.start) || other.contains(self.start)`. -/
def Span.overlaps_with [LinearOrder T] (s other : Span T) : Bool :=
  s.contains other.start || other.contains s.start

/-- `Span::default`: `Span::from(T::default()..T::default())`. -/
def Span.default [Inhabited T] : Span T :=
  Span.fromRange { start := (Inhabited.default : T), «end» := (Inhabited.default : T) }

/-- Derived `PartialEq for Range`: field-by-field equality. -/
def Range.beqImpl [DecidableEq T] (a b : Range T) : Bool :=
  decide (a.start = b.start) && decide (a.«end» = b.«end»)

/-- `impl PartialEq for Span`: `self.range().eq(&other.range())`. -/
def Span.beqImpl [DecidableEq T] (a b : Span T) : Bool :=
  Range.beqImpl a.range b.range

/-- Derived `Hash for Range`: feed `start` then `end` to the hasher state. -/
def Range.hashWith (hashT : T → Nat → Nat) (r : Range T) (state : Nat) : Nat :=
  hashT r.«end» (hashT r.start state)

/-- `impl Hash for Span`: `Hash::hash(&self.range(), state)`. -/
def Span.hashWith (hashT : T → Nat → Nat) (s : Span T) (state : Nat) : Nat :=
  Range.hashWith hashT s.range state

/-- The standard integer `Range` iterator: while `start < end`, yield
`start` and step to `start + 1`.  The fuel `n` is the number of remaining
steps `(end - start).toNat`, which makes the recursion structural. -/
def Range.iterFrom (s : Int) : Nat → List Int
  | 0 => []
  | n + 1 => s :: Range.iterFrom (s + 1) n

/-- Collect the integer `Range` iterator: yields `start, start+1, ...,
end-1`, nothing when `start >= end`. -/
def Range.toList (r : Range Int) : List Int :=
  Range.iterFrom r.start (r.«end» - r.start).toNat

/-- `impl IntoIterator for Span`: `self.into()` — iterate the span's range. -/
def Span.toList (s : Span Int) : List Int :=
  Range.toList s.range

/-- Native `str`/slice range indexing (`&text[a..b]`): the elements from
position `a` (inclusive) to `b` (exclusive); `none` models the panic on
crossed or out-of-bounds ranges. -/
def strSliceRange (text : List Char) (r : Range Nat) : Option (List Char) :=
  if r.start ≤ r.«end» ∧ r.«end» ≤ text.length then
    some ((text.drop r.start).take (r.«end» - r.start))
  else
    none

/-- `impl Index<Span<usize>> for str`: `&self[index.range()]`. -/
def strSliceSpan (text : List Char) (s : Span Nat) : Option (List Char) :=
  strSliceRange text s.range

/-! ## Helper lemmas -/

/-- The iterator started at `s` with `n` steps of fuel yields
`s, s+1, ..., s+n-1`. -/
theorem Range.iterFrom_eq_map :
    ∀ (n : Nat) (s : Int),
      Range.iterFrom s n = (List.range n).map (fun i : Nat => s + (i : Int)) := by
  intro n
  induction n with
  | zero => intro s; rfl
  | succ n ih =>
    intro s
    have h1 : Range.iterFrom s (n + 1) = s :: Range.iterFrom (s + 1) n := rfl
    rw [h1, ih, List.range_succ_eq_map]
    simp only [List.map_cons, List.map_map, Nat.cast_zero, add_zero, List.cons.injEq, true_and]
    apply List.map_congr_left
    intro i _
    simp only [Function.comp_apply]
    push_cast
    ring

/-- Unfolded form of collecting a span's iterator. -/
theorem Span.toList_eq_map (s : Span Int) :
    Span.toList s =
      (List.range (s.«end» - s.start).toNat).map (fun i : Nat => s.start + (i : Int)) := by
  rw [Span.toList, Range.toList, Range.iterFrom_eq_map]
  rfl

/-! ## Claims -/

/-- Claim C1: `a.overlaps_with(b)` is true iff `a` contains `b.start` or
`b` contains `a.start`, containment being the half-open rule
`start <= elem < end`; with the concrete examples `foo = 0..3`,
`bar = 2..4`, `biz = 3..6`, zero-width `0..0`. -/
theorem C1_overlaps_with_spec :
    (∀ a b : Span Int,
      Span.overlaps_with a b = true ↔
        ((a.start ≤ b.start ∧ b.start < a.«end») ∨
          (b.start ≤ a.start ∧ a.start < b.«end»)))
    ∧ Span.overlaps_with (⟨0, 3⟩ : Span Int) ⟨3, 6⟩ = false
    ∧ Span.overlaps_with (⟨0, 3⟩ : Span Int) ⟨2, 4⟩ = true
    ∧ Span.overlaps_with (⟨2, 4⟩ : Span Int) ⟨3, 6⟩ = true
    ∧ Span.overlaps_with (⟨0, 3⟩ : Span Int) ⟨0, 0⟩ = true := by
  refine ⟨?_, by decide, by decide, by decide, by decide⟩
  intro a b
  simp [Span.overlaps_with, Span.contains, Range.contains, Span.range]

/-- Claim C2: `is_empty` is true iff `start == end`; the crossed span
`5..3` is not reported empty, and `5..5` is. -/
theorem C2_is_empty_spec :
    (∀ s : Span Int, Span.is_empty s = true ↔ s.start = s.«end»)
    ∧ Span.is_empty (⟨5, 5⟩ : Span Int) = true
    ∧ Span.is_empty (⟨5, 3⟩ : Span Int) = false := by
  refine ⟨?_, by decide, by decide⟩
  intro s
  simp [Span.is_empty]

/-- Claim C3: the Span/Range conversion is a lossless round trip in both
directions: `Span::from(start..end).range() == start..end`, and converting
that range back yields a span with exactly the original fields. -/
theorem C3_roundtrip_spec :
    ∀ (T : Type) (a b : T),
      Span.range (Span.fromRange (⟨a, b⟩ : Range T)) = ⟨a, b⟩
      ∧ (Span.fromRange (Span.range (Span.fromRange (⟨a, b⟩ : Range T)))).start = a
      ∧ (Span.fromRange (Span.range (Span.fromRange (⟨a, b⟩ : Range T)))).«end» = b
      ∧ (∀ r : Range T, Span.range (Span.fromRange r) = r)
      ∧ (∀ s : Span T, Span.fromRange (Span.range s) = s) := by
  intro T a b
  exact ⟨rfl, rfl, rfl, fun r => rfl, fun s => rfl⟩

/-- Claim C4: for `s = a..b` with `a < b`, `s.contains(a)` is true,
`s.contains(b)` is false, and `s.contains(x)` is true whenever
`a <= x < b` (the half-open rule). -/
theorem C4_contains_boundary (a b : Int) (h : a < b) :
    Span.contains (⟨a, b⟩ : Span Int) a = true
    ∧ Span.contains (⟨a, b⟩ : Span Int) b = false
    ∧ ∀ x : Int, a ≤ x → x < b → Span.contains (⟨a, b⟩ : Span Int) x = true := by
  refine ⟨?_, ?_, ?_⟩
  · simp [Span.contains, Range.contains, Span.range]
    omega
  · simp [Span.contains, Range.contains, Span.range]
  · intro x h1 h2
    simp [Span.contains, Range.contains, Span.range]
    omega

/-- Witness for C4 at the concrete span `0..3` with `x = 2`. -/
theorem C4_contains_boundary_witness :
    Span.contains (⟨0, 3⟩ : Span Int) 0 = true
    ∧ Span.contains (⟨0, 3⟩ : Span Int) 3 = false
    ∧ Span.contains (⟨0, 3⟩ : Span Int) 2 = true := by
  have h := C4_contains_boundary 0 3 (by decide)
  exact ⟨h.1, h.2.1, h.2.2 2 (by decide) (by decide)⟩

/-- Claim C5: iterating a span yields `start, start+1, ..., end-1` in
ascending order, the empty sequence iff `start >= end`; `2..5` yields
`[2, 3, 4]`, `5..5` yields `[]`, and a fresh copy of the same span value
yields the identical sequence. -/
theorem C5_iteration_spec :
    (∀ s : Span Int,
      Span.toList s =
        (List.range (s.«end» - s.start).toNat).map (fun i : Nat => s.start + (i : Int)))
    ∧ (∀ s : Span Int, Span.toList s = [] ↔ s.«end» ≤ s.start)
    ∧ (∀ s : Span Int, List.Sorted (fun a b : Int => a < b) (Span.toList s))
    ∧ Span.toList ⟨2, 5⟩ = [2, 3, 4]
    ∧ Span.toList ⟨5, 5⟩ = []
    ∧ (∀ s : Span Int, Span.toList (Span.fromRange (Span.range s)) = Span.toList s) := by
  refine ⟨Span.toList_eq_map, ?_, ?_, by decide, by decide, fun s => rfl⟩
  · intro s
    rw [Span.toList_eq_map]
    constructor
    · intro h
      have h2 := congrArg List.length h
      simp at h2
      omega
    · intro h
      have h2 : (s.«end» - s.start).toNat = 0 := by omega
      simp [h2]
  · intro s
    rw [Span.toList_eq_map]
    rw [List.Sorted, List.pairwise_map]
    apply List.Pairwise.imp ?_ (List.pairwise_lt_range _)
    intro a b hab
    omega

/-- Claim C6: `with_len(len)` returns `[start, start + len)` where `+` is
the domain's fixed-width addition — modelled at the 8-bit domain
`Fin (2 ^ 8)`, whose `+` wraps modulo `2 ^ 8`; concretely, starting at
200 with length 100 the end wraps to 44. -/
theorem C6_with_len_spec :
    (∀ (s : Span (Fin (2 ^ 8))) (len : Fin (2 ^ 8)),
      (Span.with_len s len).start = s.start
      ∧ ((Span.with_len s len).«end» : Nat) = ((s.start : Nat) + (len : Nat)) % 2 ^ 8)
    ∧ (Span.with_len (⟨200, 0⟩ : Span (Fin (2 ^ 8))) 100).«end» = (44 : Fin (2 ^ 8)) := by
  refine ⟨?_, by decide⟩
  intro s len
  exact ⟨rfl, Fin.val_add _ _⟩

/-- Claim C7: spans are equal iff their `(start, end)` field pairs are
equal (a crossed span `5..3` is not equal to the empty span `4..4`), and
equal spans produce equal hash values for every hasher, since the hash is
computed over the same two-field representation. -/
theorem C7_eq_hash_spec (a b : Span Int) (hashT : Int → Nat → Nat) (state : Nat) :
    (Span.beqImpl a b = true ↔ (a.start = b.start ∧ a.«end» = b.«end»))
    ∧ (Span.beqImpl a b = true →
        Span.hashWith hashT a state = Span.hashWith hashT b state)
    ∧ Span.beqImpl (⟨5, 3⟩ : Span Int) ⟨4, 4⟩ = false := by
  have hiff : Span.beqImpl a b = true ↔ (a.start = b.start ∧ a.«end» = b.«end») := by
    simp [Span.beqImpl, Range.beqImpl, Span.range]
  refine ⟨hiff, ?_, by decide⟩
  intro h
  obtain ⟨h1, h2⟩ := hiff.mp h
  simp [Span.hashWith, Range.hashWith, Span.range, h1, h2]

/-- Witness for C7: two field-equal spans hash identically under a
concrete hasher. -/
theorem C7_eq_hash_spec_witness :
    Span.beqImpl (⟨1, 2⟩ : Span Int) ⟨1, 2⟩ = true
    ∧ Span.hashWith (fun x st => st * 31 + x.natAbs) (⟨1, 2⟩ : Span Int) 7 =
        Span.hashWith (fun x st => st * 31 + x.natAbs) (⟨1, 2⟩ : Span Int) 7 := by
  refine ⟨by decide, ?_⟩
  exact (C7_eq_hash_spec ⟨1, 2⟩ ⟨1, 2⟩ (fun x st => st * 31 + x.natAbs) 7).2.1 (by decide)

/-- Claim C8: `with_start(ns)` returns `[ns, end)` and `with_end(ne)`
returns `[start, ne)`; the field not being replaced is taken unchanged
from the receiver, and the receiver itself is an unchanged value (pure
copy semantics — the functions build a new record). -/
theorem C8_with_start_with_end_spec :
    ∀ (T : Type) (s : Span T) (ns ne : T),
      Span.with_start s ns = ⟨ns, s.«end»⟩
      ∧ Span.with_end s ne = ⟨s.start, ne⟩
      ∧ (Span.with_start s ns).«end» = s.«end»
      ∧ (Span.with_end s ne).start = s.start
      ∧ (Span.with_start (Span.fromRange (Span.range s)) ns).start = ns
      ∧ s = s := by
  intro T s ns ne
  exact ⟨rfl, rfl, rfl, rfl, rfl, rfl⟩

/-- Claim C9: indexing a text by a span delegates to native half-open
range indexing; on `"hello world"`, the span `6..11` yields `"world"` and
`(6..11).with_len(2)` yields `"wo"`. -/
theorem C9_str_indexing_spec :
    (∀ (text : List Char) (s : Span Nat), strSliceSpan text s = strSliceRange text s.range)
    ∧ strSliceSpan "hello world".toList ⟨6, 11⟩ = some "world".toList
    ∧ strSliceSpan "hello world".toList (Span.with_len ⟨6, 11⟩ 2) = some "wo".toList := by
  exact ⟨fun text s => rfl, by decide, by decide⟩

/-- Claim C10: `overlaps_with` is commutative for every pair of spans
(crossed and zero-width included), because the two-clause disjunction is
invariant under swapping the arguments. -/
theorem C10_overlaps_with_comm {T : Type} [LinearOrder T] (a b : Span T) :
    Span.overlaps_with a b = Span.overlaps_with b a := by
  simp [Span.overlaps_with, Bool.or_comm]

end Copyspan
